import Mathlib

/-!
Verification of the whirlwind graph / network-flow library core.

The development shallowly embeds the library's data model:

* `Forest`           — `forest.hpp`: per-vertex predecessor (vertex, edge) arrays.
* `ShortestPathForest` — `shortest_path_forest.hpp`: adds per-vertex labels and
  distances.
* `Dial`             — `graph/dial.hpp`: adds the ring of FIFO buckets and the
  current-bucket cursor.
* `Network`          — `network/network.hpp`: node excess / potential and
  residual arc costs.

Vertices, edges, nodes and arcs are dense `Nat` identifiers (`get_vertex_id` /
`get_arc_id` are the identity on the CSR graph's integer ids).  Machine-integer
distance values are modelled as `WithTop Nat`: Dial statically requires an
integral, non-negative distance type, and the spec treats `infinity<T>()` as an
abstract positive-infinity sentinel supplied by a collaborator, which `⊤`
embeds.  FIFO queues are lists with the front at the head and pushes appended
at the tail.  `WHIRLWIND_ASSERT` preconditions become theorem hypotheses.
-/

namespace Whirlwind

/-- Per-vertex label of a shortest-path forest (`label_type` in
`shortest_path_forest.hpp`). -/
inductive Label where
  | unreached
  | reached
  | visited
deriving DecidableEq, Repr

/-- Distance values: the integral `distance_type` together with its
`infinity<distance_type>()` sentinel, modelled as `⊤`. -/
abbrev Dist := WithTop Nat

/-- A forest of rooted trees in a graph (`forest.hpp`).  The `numVertices` /
`numEdges` fields stand for the non-owning reference to the underlying graph
(only its sizes are observable through `contains_vertex` / `contains_edge` on
dense integer ids). -/
structure Forest where
  numVertices : Nat
  numEdges : Nat
  edgeFillValue : Nat
  predVertex : List Nat
  predEdge : List Nat
deriving DecidableEq, Repr

namespace Forest

/-- Graph membership test for a dense vertex id. -/
def containsVertex (f : Forest) (v : Nat) : Bool :=
  v < f.numVertices

/-- Graph membership test for a dense edge id. -/
def containsEdge (f : Forest) (e : Nat) : Bool :=
  e < f.numEdges

/-- `Forest::Forest(graph, edge_fill_value)`: every vertex is the root of its
own singleton tree and every predecessor edge holds the fill value. -/
def init (nv ne fill : Nat) : Forest :=
  { numVertices := nv
    numEdges := ne
    edgeFillValue := fill
    predVertex := List.range nv
    predEdge := List.replicate nv fill }

/-- `Forest::predecessor_vertex`. -/
def predecessorVertex (f : Forest) (v : Nat) : Nat :=
  f.predVertex.getD v v

/-- `Forest::is_root_vertex`: a vertex is a root iff its predecessor vertex is
itself. -/
def isRootVertex (f : Forest) (v : Nat) : Bool :=
  f.predecessorVertex v == v

/-- `Forest::set_predecessor(vertex, pred_vertex, pred_edge)`. -/
def setPredecessor (f : Forest) (v pv pe : Nat) : Forest :=
  { f with
    predVertex := f.predVertex.set v pv
    predEdge := f.predEdge.set v pe }

/-- `Forest::make_root_vertex(vertex)`: predecessor vertex becomes the vertex
itself and the predecessor edge is reset to the fill value. -/
def makeRootVertex (f : Forest) (v : Nat) : Forest :=
  { f with
    predVertex := f.predVertex.set v v
    predEdge := f.predEdge.set v f.edgeFillValue }

/-- `Forest::reset`: re-copies the vertex range into `pred_vertex_` and fills
`pred_edge_` with the fill value (`ranges::fill` keeps the array length). -/
def reset (f : Forest) : Forest :=
  { f with
    predVertex := List.range f.numVertices
    predEdge := f.predEdge.map (fun _ => f.edgeFillValue) }

end Forest

/-- `ShortestPathForest` (`shortest_path_forest.hpp`): a forest plus per-vertex
labels and distances. -/
structure ShortestPathForest extends Forest where
  label : List Label
  dist : List Dist
deriving DecidableEq

namespace ShortestPathForest

/-- `ShortestPathForest::ShortestPathForest(graph)`. -/
def init (nv ne fill : Nat) : ShortestPathForest :=
  { toForest := Forest.init nv ne fill
    label := List.replicate nv .unreached
    dist := List.replicate nv ⊤ }

/-- The stored label of a vertex. -/
def labelOf (s : ShortestPathForest) (v : Nat) : Label :=
  s.label.getD v .unreached

/-- `ShortestPathForest::has_reached_vertex`. -/
def hasReachedVertex (s : ShortestPathForest) (v : Nat) : Bool :=
  s.labelOf v != .unreached

/-- `ShortestPathForest::has_visited_vertex`. -/
def hasVisitedVertex (s : ShortestPathForest) (v : Nat) : Bool :=
  s.labelOf v == .visited

/-- `ShortestPathForest::label_vertex_reached`. -/
def labelVertexReached (s : ShortestPathForest) (v : Nat) : ShortestPathForest :=
  { s with label := s.label.set v .reached }

/-- `ShortestPathForest::label_vertex_visited`. -/
def labelVertexVisited (s : ShortestPathForest) (v : Nat) : ShortestPathForest :=
  { s with label := s.label.set v .visited }

/-- `ShortestPathForest::distance_to_vertex`. -/
def distanceToVertex (s : ShortestPathForest) (v : Nat) : Dist :=
  s.dist.getD v ⊤

/-- `ShortestPathForest::set_distance_to_vertex`. -/
def setDistanceToVertex (s : ShortestPathForest) (v : Nat) (d : Dist) :
    ShortestPathForest :=
  { s with dist := s.dist.set v d }

/-- Lift of `Forest::set_predecessor` to the derived class. -/
def setPredecessor (s : ShortestPathForest) (v pv pe : Nat) : ShortestPathForest :=
  { s with toForest := s.toForest.setPredecessor v pv pe }

/-- Lift of `Forest::make_root_vertex` to the derived class. -/
def makeRootVertex (s : ShortestPathForest) (v : Nat) : ShortestPathForest :=
  { s with toForest := s.toForest.makeRootVertex v }

/-- `ShortestPathForest::reset`: base reset, then fill labels with `unreached`
and distances with the `infinity` sentinel (`ranges::fill` keeps lengths). -/
def reset (s : ShortestPathForest) : ShortestPathForest :=
  { toForest := s.toForest.reset
    label := s.label.map (fun _ => .unreached)
    dist := s.dist.map (fun _ => ⊤) }

end ShortestPathForest

/-- Dial's algorithm search state (`graph/dial.hpp`): a shortest-path forest
plus a ring of FIFO buckets and the current-bucket cursor. -/
structure Dial extends ShortestPathForest where
  buckets : List (List Nat)
  currentBucketId : Nat
deriving DecidableEq

namespace Dial

/-- `Dial::Dial(graph, num_buckets)`: base state from the graph, `num_buckets`
empty buckets, cursor at 0. -/
def init (nv ne fill numBuckets : Nat) : Dial :=
  { toShortestPathForest := ShortestPathForest.init nv ne fill
    buckets := List.replicate numBuckets []
    currentBucketId := 0 }

/-- `Dial::num_buckets`. -/
def numBuckets (s : Dial) : Nat :=
  s.buckets.length

/-- `Dial::get_bucket_id(distance)`: the distance reduced modulo the number of
buckets. -/
def getBucketId (s : Dial) (d : Nat) : Nat :=
  d % s.numBuckets

/-- `Dial::get_bucket(bucket_id)` (read access). -/
def getBucket (s : Dial) (i : Nat) : List Nat :=
  s.buckets.getD i []

/-- Write access through `Dial::get_bucket(bucket_id)`: replace the contents
of one bucket. -/
def setBucket (s : Dial) (i : Nat) (q : List Nat) : Dial :=
  { s with buckets := s.buckets.set i q }

/-- `Dial::current_bucket`. -/
def currentBucket (s : Dial) : List Nat :=
  s.getBucket s.currentBucketId

/-- `Dial::advance_current_bucket`: early return when the bucket array is
empty, otherwise increment the cursor modulo `num_buckets`. -/
def advanceCurrentBucket (s : Dial) : Dial :=
  if s.numBuckets = 0 then s
  else { s with currentBucketId := (s.currentBucketId + 1) % s.numBuckets }

/-- `Dial::push_vertex(vertex, distance)`: append the vertex to the bucket
selected by `get_bucket_id`. -/
def pushVertex (s : Dial) (v : Nat) (d : Nat) : Dial :=
  s.setBucket (s.getBucketId d) (s.getBucket (s.getBucketId d) ++ [v])

/-- Lift of `ShortestPathForest::label_vertex_reached`. -/
def labelVertexReached (s : Dial) (v : Nat) : Dial :=
  { s with toShortestPathForest := s.toShortestPathForest.labelVertexReached v }

/-- Lift of `ShortestPathForest::label_vertex_visited`. -/
def labelVertexVisited (s : Dial) (v : Nat) : Dial :=
  { s with toShortestPathForest := s.toShortestPathForest.labelVertexVisited v }

/-- Lift of `ShortestPathForest::set_distance_to_vertex`. -/
def setDistanceToVertex (s : Dial) (v : Nat) (d : Dist) : Dial :=
  { s with toShortestPathForest := s.toShortestPathForest.setDistanceToVertex v d }

/-- Lift of `Forest::set_predecessor`. -/
def setPredecessor (s : Dial) (v pv pe : Nat) : Dial :=
  { s with toShortestPathForest := s.toShortestPathForest.setPredecessor v pv pe }

/-- Lift of `Forest::make_root_vertex`. -/
def makeRootVertex (s : Dial) (v : Nat) : Dial :=
  { s with toShortestPathForest := s.toShortestPathForest.makeRootVertex v }

/-- `Dial::add_source(source)`. -/
def addSource (s : Dial) (src : Nat) : Dial :=
  (((s.makeRootVertex src).labelVertexReached src).setDistanceToVertex src
    ((0 : Nat) : Dist)).pushVertex src 0

/-- `Dial::pop_next_unvisited_vertex`: return the front of the current bucket
together with its stored distance, removing it from the bucket. -/
def popNextUnvisitedVertex (s : Dial) : (Nat × Dist) × Dial :=
  let front := s.currentBucket.headD 0
  ((front, s.toShortestPathForest.distanceToVertex front),
    s.setBucket s.currentBucketId s.currentBucket.tail)

/-- `Dial::reach_vertex(edge, tail, head, distance)`. -/
def reachVertex (s : Dial) (edge tail head : Nat) (d : Nat) : Dial :=
  ((((s.setPredecessor head tail edge).labelVertexReached head).setDistanceToVertex
      head (d : Dist)).pushVertex head d)

/-- `Dial::visit_vertex(vertex, distance)`. -/
def visitVertex (s : Dial) (v : Nat) (_d : Nat) : Dial :=
  s.labelVertexVisited v

/-- `Dial::relax_edge(edge, tail, head, distance)`: reach the head exactly when
the tentative distance improves on the stored one. -/
def relaxEdge (s : Dial) (edge tail head : Nat) (d : Nat) : Dial :=
  if (d : Dist) < s.toShortestPathForest.distanceToVertex head then
    s.reachVertex edge tail head d
  else s

/-- One pass of the `do`/`while` loop body of `Dial::done`, with the remaining
number of ring positions as structural fuel: drop the visited prefix of the
current bucket; if a non-visited vertex surfaces, stop with `false`; otherwise
advance the cursor and continue until the scan returns to its start. -/
def doneAux : Nat → Dial → Bool × Dial
  | 0, s => (true, s)
  | fuel + 1, s =>
    let b := (s.currentBucket).dropWhile
      (fun v => s.toShortestPathForest.hasVisitedVertex v)
    let s1 := s.setBucket s.currentBucketId b
    if b.isEmpty then doneAux fuel s1.advanceCurrentBucket
    else (false, s1)

/-- `Dial::done`: early `true` when the bucket array is empty; otherwise the
cyclic scan of at most `num_buckets` ring positions. -/
def done (s : Dial) : Bool × Dial :=
  if s.numBuckets = 0 then (true, s)
  else doneAux s.numBuckets s

/-- `Dial::reset`: base reset, clear every bucket, cursor back to 0. -/
def reset (s : Dial) : Dial :=
  { toShortestPathForest := s.toShortestPathForest.reset
    buckets := s.buckets.map (fun _ => [])
    currentBucketId := 0 }

end Dial

/-- The `WHIRLWIND_ASSERT` guard of `Forest::set_predecessor`: both vertices
must be contained in the graph, and the predecessor edge must be a contained
edge unless the vertex is being made its own predecessor. -/
def Forest.setPredecessorGuard (f : Forest) (v pv pe : Nat) : Bool :=
  f.containsVertex v && f.containsVertex pv && (v == pv || f.containsEdge pe)

/-- `Forest::predecessor_edge` (asserted to be called on non-root vertices;
reading a root's slot yields whatever the slot holds). -/
def Forest.predecessorEdge (f : Forest) (v : Nat) : Nat :=
  f.predEdge.getD v f.edgeFillValue

theorem getD_set_self {α : Type} (l : List α) (i : Nat) (a d : α)
    (h : i < l.length) : (l.set i a).getD i d = a := by
  simp [List.getD_eq_getElem?_getD, List.getElem?_set, h]

theorem getD_set_ne {α : Type} (l : List α) {i j : Nat} (a d : α)
    (h : i ≠ j) : (l.set i a).getD j d = l.getD j d := by
  simp [List.getD_eq_getElem?_getD, List.getElem?_set, h]

/-- Modelled from the spec: the residual graph's arc indexing, whose source
(the residual-graph / capacity-mixin headers) is not under `src/`.  Spec §3:
the residual arc space has `2|E|` arcs, arcs `[0, |E|)` are forward and arcs
`[|E|, 2|E|)` are reverse.  `is_forward_arc`. -/
def isForwardArc (numEdges a : Nat) : Bool :=
  a < numEdges

/-- Modelled from the spec: `get_transpose_arc_id` — "for forward arc a the
transpose is a+|E|; for reverse arc a, the transpose is a−|E|". -/
def getTransposeArcId (numEdges a : Nat) : Nat :=
  if a < numEdges then a + numEdges else a - numEdges

/-- Modelled from the spec: `get_edge_id` on a forward residual arc — forward
arcs `[0, |E|)` carry the underlying edge of the same dense id
(`network.hpp` only applies it to forward arcs). -/
def getEdgeId (a : Nat) : Nat :=
  a

/-- `Network::make_residual_arc_costs(forward_cost)` (`network/network.hpp`):
the cost of a forward arc is the underlying forward cost of its edge; the cost
of a reverse arc is the negation of the forward cost of its transpose's edge.
The NaN assertions are vacuous for the integral cost type modelled here. -/
def makeResidualArcCosts (numEdges : Nat) (forwardCost : List Int) : List Int :=
  (List.range (2 * numEdges)).map (fun a =>
    if isForwardArc numEdges a then forwardCost.getD (getEdgeId a) 0
    else -(forwardCost.getD (getEdgeId (getTransposeArcId numEdges a)) 0))

/-- Residual-network state of `Network` (`network/network.hpp`): per-node
excess and potential, per-arc cost over the doubled arc space. -/
structure Network where
  numNodes : Nat
  numEdges : Nat
  nodeExcess : List Int
  nodePotential : List Int
  arcCost : List Int
deriving DecidableEq, Repr

namespace Network

/-- The `Network(graph, surplus, cost)` constructor: excesses from the surplus
array, potentials all zero, arc costs from `make_residual_arc_costs`. -/
def ofGraph (numNodes numEdges : Nat) (surplus forwardCost : List Int) : Network :=
  { numNodes := numNodes
    numEdges := numEdges
    nodeExcess := surplus
    nodePotential := List.replicate numNodes 0
    arcCost := makeResidualArcCosts numEdges forwardCost }

/-- `Network::nodes()`: the dense node ids. -/
def nodes (net : Network) : List Nat :=
  List.range net.numNodes

/-- `Network::node_excess(node)`. -/
def nodeExcessAt (net : Network) (v : Nat) : Int :=
  net.nodeExcess.getD v 0

/-- `Network::is_excess_node`. -/
def isExcessNode (net : Network) (v : Nat) : Bool :=
  decide (net.nodeExcessAt v > 0)

/-- `Network::is_deficit_node`. -/
def isDeficitNode (net : Network) (v : Nat) : Bool :=
  decide (net.nodeExcessAt v < 0)

/-- `Network::excess_nodes()`. -/
def excessNodes (net : Network) : List Nat :=
  net.nodes.filter net.isExcessNode

/-- `Network::deficit_nodes()`. -/
def deficitNodes (net : Network) : List Nat :=
  net.nodes.filter net.isDeficitNode

/-- `Network::total_excess()`: left fold of the excesses of the excess nodes,
starting from 0. -/
def totalExcess (net : Network) : Int :=
  (net.excessNodes.map net.nodeExcessAt).foldl (· + ·) 0

/-- `Network::total_deficit()`: left fold of the excesses of the deficit
nodes, starting from 0. -/
def totalDeficit (net : Network) : Int :=
  (net.deficitNodes.map net.nodeExcessAt).foldl (· + ·) 0

/-- `Network::is_balanced()`: left fold of the raw `node_excess_` container
compared with 0. -/
def isBalanced (net : Network) : Bool :=
  net.nodeExcess.foldl (· + ·) 0 == 0

/-- `Network::arc_cost(arc)`. -/
def arcCostAt (net : Network) (a : Nat) : Int :=
  net.arcCost.getD a 0

/-- `Network::node_potential(node)`. -/
def nodePotentialAt (net : Network) (v : Nat) : Int :=
  net.nodePotential.getD v 0

/-- `Network::arc_reduced_cost(arc, tail, head)`. -/
def arcReducedCost (net : Network) (a t h : Nat) : Int :=
  net.arcCostAt a - net.nodePotentialAt t + net.nodePotentialAt h

end Network

theorem getD_map_range {α : Type} (f : Nat → α) (d : α) (n a : Nat)
    (h : a < n) : ((List.range n).map f).getD a d = f a := by
  simp [List.getD_eq_getElem?_getD, List.getElem?_map, List.getElem?_range, h]

/-- C5: in a residual network built from `|E|` edges and a forward-cost array,
every forward arc's cost is the forward cost of its edge, every reverse arc's
cost is the negation of the forward cost of its transpose's edge, and hence
transposing an arc negates its cost. -/
theorem network_residual_arc_costs (nn ne : Nat) (surplus fc : List Int)
    (hlen : fc.length = ne) :
    (∀ a, a < ne →
      (Network.ofGraph nn ne surplus fc).arcCostAt a = fc.getD (getEdgeId a) 0) ∧
    (∀ a, ne ≤ a → a < 2 * ne →
      (Network.ofGraph nn ne surplus fc).arcCostAt a
        = -(fc.getD (getEdgeId (getTransposeArcId ne a)) 0)) ∧
    (∀ a, a < 2 * ne →
      (Network.ofGraph nn ne surplus fc).arcCostAt (getTransposeArcId ne a)
        = -((Network.ofGraph nn ne surplus fc).arcCostAt a)) := by
  have hcost : ∀ a, a < 2 * ne →
      (Network.ofGraph nn ne surplus fc).arcCostAt a
        = if isForwardArc ne a then fc.getD (getEdgeId a) 0
          else -(fc.getD (getEdgeId (getTransposeArcId ne a)) 0) := by
    intro a ha
    simp only [Network.ofGraph, Network.arcCostAt, makeResidualArcCosts]
    rw [getD_map_range _ _ _ _ ha]
  refine ⟨?_, ?_, ?_⟩
  · intro a ha
    rw [hcost a (by omega)]
    simp [isForwardArc, ha]
  · intro a ha1 ha2
    rw [hcost a ha2]
    simp [isForwardArc, Nat.not_lt.mpr ha1]
  · intro a ha
    by_cases hf : a < ne
    · have ht : getTransposeArcId ne a = a + ne := by
        simp [getTransposeArcId, hf]
      rw [ht, hcost (a + ne) (by omega), hcost a (by omega)]
      have h1 : ¬ a + ne < ne := by omega
      simp [isForwardArc, hf, h1, getTransposeArcId, getEdgeId]
    · have ht : getTransposeArcId ne a = a - ne := by
        simp [getTransposeArcId, hf]
      rw [ht, hcost (a - ne) (by omega), hcost a (by omega)]
      have h1 : a - ne < ne := by omega
      simp [isForwardArc, hf, h1, getTransposeArcId, getEdgeId]

theorem network_residual_arc_costs_witness :
    ((Network.ofGraph 3 2 [1, 0, -1] [2, 5]).arcCostAt 0
      = [(2 : Int), 5].getD (getEdgeId 0) 0) ∧
    ((Network.ofGraph 3 2 [1, 0, -1] [2, 5]).arcCostAt 3
      = -([(2 : Int), 5].getD (getEdgeId (getTransposeArcId 2 3)) 0)) ∧
    ((Network.ofGraph 3 2 [1, 0, -1] [2, 5]).arcCostAt (getTransposeArcId 2 1)
      = -((Network.ofGraph 3 2 [1, 0, -1] [2, 5]).arcCostAt 1)) :=
  ⟨(network_residual_arc_costs 3 2 [1, 0, -1] [2, 5] rfl).1 0 (by decide),
    (network_residual_arc_costs 3 2 [1, 0, -1] [2, 5] rfl).2.1 3 (by decide)
      (by decide),
    (network_residual_arc_costs 3 2 [1, 0, -1] [2, 5] rfl).2.2 1 (by decide)⟩

theorem map_getD_range_self {α : Type} (l : List α) (d : α) :
    (List.range l.length).map (fun i => l.getD i d) = l := by
  apply List.ext_getElem (by simp)
  intro i h1 h2
  simp [List.getD_eq_getElem?_getD, List.getElem?_eq_getElem, h2]

theorem sum_filter_pos_add_sum_filter_neg (l : List Int) :
    (l.filter (fun x => decide (x > 0))).sum
      + (l.filter (fun x => decide (x < 0))).sum = l.sum := by
  induction l with
  | nil => simp
  | cons a t ih =>
    by_cases hp : a > 0
    · have hn : ¬ (a < 0) := by omega
      simp only [List.filter_cons]
      rw [if_pos (by simpa using hp), if_neg (by simpa using hn)]
      simp only [List.sum_cons]
      omega
    · by_cases hn : a < 0
      · simp only [List.filter_cons]
        rw [if_neg (by simpa using hp), if_pos (by simpa using hn)]
        simp only [List.sum_cons]
        omega
      · simp only [List.filter_cons]
        rw [if_neg (by simpa using hp), if_neg (by simpa using hn)]
        have ha : a = 0 := by omega
        subst ha
        simp only [List.sum_cons]
        omega

/-- C6: `total_excess()` sums the excesses of the nodes with positive excess,
`total_deficit()` sums the excesses of the nodes with negative excess, and
`is_balanced()` holds exactly when the excesses sum to zero over all nodes,
equivalently when `total_excess() + total_deficit() = 0`. -/
theorem network_excess_deficit_balance (net : Network)
    (hlen : net.nodeExcess.length = net.numNodes) :
    net.totalExcess
      = ((net.nodes.filter (fun v => net.nodeExcessAt v > 0)).map
          net.nodeExcessAt).sum ∧
    net.totalDeficit
      = ((net.nodes.filter (fun v => net.nodeExcessAt v < 0)).map
          net.nodeExcessAt).sum ∧
    (net.isBalanced = true ↔ (net.nodes.map net.nodeExcessAt).sum = 0) ∧
    (net.isBalanced = true ↔ net.totalExcess + net.totalDeficit = 0) := by
  have hvals : net.nodes.map net.nodeExcessAt = net.nodeExcess := by
    show (List.range net.numNodes).map (fun i => net.nodeExcess.getD i 0)
      = net.nodeExcess
    rw [← hlen]
    exact map_getD_range_self net.nodeExcess 0
  have hex : net.totalExcess
      = ((net.nodes.map net.nodeExcessAt).filter (fun x => decide (x > 0))).sum := by
    rw [List.filter_map, List.sum_eq_foldl]
    rfl
  have hdef : net.totalDeficit
      = ((net.nodes.map net.nodeExcessAt).filter (fun x => decide (x < 0))).sum := by
    rw [List.filter_map, List.sum_eq_foldl]
    rfl
  have hbal : net.isBalanced = true ↔ (net.nodes.map net.nodeExcessAt).sum = 0 := by
    rw [hvals, List.sum_eq_foldl]
    simp [Network.isBalanced]
  refine ⟨?_, ?_, hbal, ?_⟩
  · rw [hex, List.filter_map]
    rfl
  · rw [hdef, List.filter_map]
    rfl
  · rw [hbal, hex, hdef, sum_filter_pos_add_sum_filter_neg]

theorem network_excess_deficit_balance_witness :
    (Network.ofGraph 3 2 [1, 0, -1] [2, 5]).totalExcess
      = (((Network.ofGraph 3 2 [1, 0, -1] [2, 5]).nodes.filter
          (fun v => (Network.ofGraph 3 2 [1, 0, -1] [2, 5]).nodeExcessAt v > 0)).map
            (Network.ofGraph 3 2 [1, 0, -1] [2, 5]).nodeExcessAt).sum ∧
    ((Network.ofGraph 3 2 [1, 0, -1] [2, 5]).isBalanced = true ↔
      (Network.ofGraph 3 2 [1, 0, -1] [2, 5]).totalExcess
        + (Network.ofGraph 3 2 [1, 0, -1] [2, 5]).totalDeficit = 0) :=
  ⟨(network_excess_deficit_balance (Network.ofGraph 3 2 [1, 0, -1] [2, 5]) rfl).1,
    (network_excess_deficit_balance
      (Network.ofGraph 3 2 [1, 0, -1] [2, 5]) rfl).2.2.2⟩

/-- The interface of the `Network` template parameter consumed by
`get_max_admissible_arc_length` (`graph/dial.hpp`): nodes, outgoing residual
arcs as (arc, head) pairs, and the mixin-provided saturation test, arc costs
and node potentials.  `cost_type` here is integral — the `Dial(const Network&)`
constructor statically asserts `Network::cost_type` equals the integral
`distance_type` — so the `isnan` / `isinf` branches of the scan are
identically false and vacuous. -/
structure NetworkView where
  numNodes : Nat
  outgoingArcs : Nat → List (Nat × Nat)
  isArcSaturated : Nat → Bool
  arcCost : Nat → Int
  nodePotential : Nat → Int

/-- `arc_reduced_cost(arc, tail, head)` of the viewed network. -/
def NetworkView.arcReducedCost (net : NetworkView) (a t h : Nat) : Int :=
  net.arcCost a - net.nodePotential t + net.nodePotential h

/-- `get_max_admissible_arc_length(network)` (`graph/dial.hpp`): scan every
outgoing arc of every node, skip saturated arcs, and fold the maximum reduced
cost starting from zero. -/
def getMaxAdmissibleArcLength (net : NetworkView) : Int :=
  (List.range net.numNodes).foldl
    (fun acc tail =>
      (net.outgoingArcs tail).foldl
        (fun acc2 ah =>
          if net.isArcSaturated ah.1 then acc2
          else max acc2 (net.arcReducedCost ah.1 tail ah.2))
        acc)
    0

/-- The reduced costs of the non-saturated arcs in scan order — the set of
arc lengths the claim's maximum ranges over. -/
def admissibleArcCosts (net : NetworkView) : List Int :=
  (List.range net.numNodes).bind (fun tail =>
    ((net.outgoingArcs tail).filter (fun ah => !net.isArcSaturated ah.1)).map
      (fun ah => net.arcReducedCost ah.1 tail ah.2))

/-- The `Dial(const Network&)` constructor: delegate to the explicit
constructor with the residual graph (whose sizes are passed through) and
`num_buckets` = max admissible arc length + 1. -/
def Dial.ofNetwork (net : NetworkView) (nv ne fill : Nat) : Dial :=
  Dial.init nv ne fill ((getMaxAdmissibleArcLength net).toNat + 1)

theorem foldl_skip_max_eq (sat : Nat → Bool) (f : Nat × Nat → Int) :
    ∀ (l : List (Nat × Nat)) (acc : Int),
    l.foldl (fun a ah => if sat ah.1 then a else max a (f ah)) acc
      = ((l.filter (fun ah => !sat ah.1)).map f).foldl max acc := by
  intro l
  induction l with
  | nil => intro acc; rfl
  | cons ah t ih =>
    intro acc
    by_cases hs : sat ah.1
    · simp only [List.foldl_cons, List.filter_cons, hs, if_pos hs]
      simpa [hs] using ih acc
    · simp only [List.foldl_cons, List.filter_cons, if_neg hs]
      simpa [hs] using ih (max acc (f ah))

theorem foldl_max_bind (g : Nat → List Int) :
    ∀ (l : List Nat) (acc : Int),
    l.foldl (fun a t => (g t).foldl max a) acc = (l.bind g).foldl max acc := by
  intro l
  induction l with
  | nil => intro acc; rfl
  | cons x t ih =>
    intro acc
    simp only [List.foldl_cons, List.cons_bind, List.foldl_append]
    exact ih ((g x).foldl max acc)

theorem getMaxAdmissibleArcLength_eq_foldl (net : NetworkView) :
    getMaxAdmissibleArcLength net = (admissibleArcCosts net).foldl max 0 := by
  unfold getMaxAdmissibleArcLength admissibleArcCosts
  rw [← foldl_max_bind]
  congr 1
  funext acc tail
  exact foldl_skip_max_eq net.isArcSaturated
    (fun ah => net.arcReducedCost ah.1 tail ah.2) (net.outgoingArcs tail) acc

theorem acc_le_foldl_max (l : List Int) : ∀ acc : Int, acc ≤ l.foldl max acc := by
  induction l with
  | nil => intro acc; exact le_refl _
  | cons a t ih =>
    intro acc
    exact le_trans (le_max_left acc a) (ih (max acc a))

theorem mem_le_foldl_max (l : List Int) :
    ∀ acc : Int, ∀ c ∈ l, c ≤ l.foldl max acc := by
  induction l with
  | nil => intro acc c hc; cases hc
  | cons a t ih =>
    intro acc c hc
    rcases List.mem_cons.mp hc with h | h
    · subst h
      exact le_trans (le_max_right acc c) (acc_le_foldl_max t (max acc c))
    · exact ih (max acc a) c h

theorem foldl_max_eq_acc_or_mem (l : List Int) :
    ∀ acc : Int, l.foldl max acc = acc ∨ l.foldl max acc ∈ l := by
  induction l with
  | nil => intro acc; left; rfl
  | cons a t ih =>
    intro acc
    rcases ih (max acc a) with h | h
    · rw [List.foldl_cons, h]
      rcases max_choice acc a with h2 | h2
      · left; exact h2
      · right; rw [h2]; exact List.mem_cons_self a t
    · right
      exact List.mem_cons_of_mem a h

/-- C1: constructing a Dial search from a residual network yields
`num_buckets() = L + 1`, where `L = get_max_admissible_arc_length` is an upper
bound of the reduced costs of all non-saturated arcs and is either one of
those reduced costs or zero (in particular `L = 0` when no such arc exists);
saturated arcs do not contribute.  The hypothesis is the scan's assertion that
every admissible arc length is non-negative; the NaN / infinity branches are
vacuous for the integral cost type required by the constructor. -/
theorem dial_of_network_num_buckets (net : NetworkView) (nv ne fill : Nat)
    (hnn : ∀ c ∈ admissibleArcCosts net, 0 ≤ c) :
    (Dial.ofNetwork net nv ne fill).numBuckets
      = (getMaxAdmissibleArcLength net).toNat + 1 ∧
    0 ≤ getMaxAdmissibleArcLength net ∧
    (∀ c ∈ admissibleArcCosts net, c ≤ getMaxAdmissibleArcLength net) ∧
    (getMaxAdmissibleArcLength net = 0 ∨
      getMaxAdmissibleArcLength net ∈ admissibleArcCosts net) := by
  refine ⟨by simp [Dial.ofNetwork, Dial.init, Dial.numBuckets], ?_, ?_, ?_⟩
  · rw [getMaxAdmissibleArcLength_eq_foldl]
    exact acc_le_foldl_max (admissibleArcCosts net) 0
  · intro c hc
    rw [getMaxAdmissibleArcLength_eq_foldl]
    exact mem_le_foldl_max (admissibleArcCosts net) 0 c hc
  · rw [getMaxAdmissibleArcLength_eq_foldl]
    exact foldl_max_eq_acc_or_mem (admissibleArcCosts net) 0

/-- Sample residual-network view: two nodes; arc 0 (node 0 → 1, reduced cost
5) and arc 1 (node 1 → 0, reduced cost 0) admissible, arc 2 saturated. -/
def sampleNetworkView : NetworkView :=
  { numNodes := 2
    outgoingArcs := fun t => if t = 0 then [(0, 1), (2, 1)] else [(1, 0)]
    isArcSaturated := fun a => a == 2
    arcCost := fun a => if a = 0 then 3 else if a = 1 then 2 else 9
    nodePotential := fun v => if v = 0 then 0 else 2 }

theorem dial_of_network_num_buckets_witness :
    (Dial.ofNetwork sampleNetworkView 2 3 0).numBuckets
      = (getMaxAdmissibleArcLength sampleNetworkView).toNat + 1 ∧
    0 ≤ getMaxAdmissibleArcLength sampleNetworkView ∧
    (∀ c ∈ admissibleArcCosts sampleNetworkView,
      c ≤ getMaxAdmissibleArcLength sampleNetworkView) ∧
    (getMaxAdmissibleArcLength sampleNetworkView = 0 ∨
      getMaxAdmissibleArcLength sampleNetworkView
        ∈ admissibleArcCosts sampleNetworkView) :=
  dial_of_network_num_buckets sampleNetworkView 2 3 0 (by decide)

/-- One mutating call on a Dial search, used to quantify over "any sequence of
valid operations" on the search state.  Calls that also return a value
(`pop_next_unvisited_vertex`, `done`) contribute their state effect. -/
inductive DialOp where
  | addSource (src : Nat)
  | pushVertex (v d : Nat)
  | popNextUnvisitedVertex
  | reachVertex (edge tail head d : Nat)
  | visitVertex (v d : Nat)
  | relaxEdge (edge tail head d : Nat)
  | advanceCurrentBucket
  | done
  | setDistanceToVertex (v : Nat) (d : Dist)
  | setPredecessor (v pv pe : Nat)
  | makeRootVertex (v : Nat)
  | labelVertexReached (v : Nat)
  | labelVertexVisited (v : Nat)
deriving DecidableEq, Repr

/-- The state effect of one Dial call. -/
def DialOp.apply (s : Dial) : DialOp → Dial
  | .addSource src => s.addSource src
  | .pushVertex v d => s.pushVertex v d
  | .popNextUnvisitedVertex => s.popNextUnvisitedVertex.2
  | .reachVertex edge tail head d => s.reachVertex edge tail head d
  | .visitVertex v d => s.visitVertex v d
  | .relaxEdge edge tail head d => s.relaxEdge edge tail head d
  | .advanceCurrentBucket => s.advanceCurrentBucket
  | .done => s.done.2
  | .setDistanceToVertex v d => s.setDistanceToVertex v d
  | .setPredecessor v pv pe => s.setPredecessor v pv pe
  | .makeRootVertex v => s.makeRootVertex v
  | .labelVertexReached v => s.labelVertexReached v
  | .labelVertexVisited v => s.labelVertexVisited v

/-- Drive a Dial search through a sequence of calls. -/
def runDial (ops : List DialOp) (s : Dial) : Dial :=
  ops.foldl DialOp.apply s

theorem dial_numBuckets_setBucket (s : Dial) (i : Nat) (q : List Nat) :
    (s.setBucket i q).numBuckets = s.numBuckets := by
  simp [Dial.setBucket, Dial.numBuckets]

/-- In a zero-bucket search every call leaves the bucket array empty and the
cursor at 0: `advance_current_bucket` and `done` early-return, bucket writes
through `List.set` on the empty bucket array are no-ops, and `reset` clears. -/
theorem dialOp_apply_zero_buckets (s : Dial) (op : DialOp)
    (hn : s.numBuckets = 0) (hc : s.currentBucketId = 0) :
    (op.apply s).numBuckets = 0 ∧ (op.apply s).currentBucketId = 0 := by
  have hb : s.buckets = [] := List.length_eq_zero.mp hn
  cases op <;>
    simp [DialOp.apply, Dial.addSource, Dial.pushVertex, Dial.setBucket,
      Dial.numBuckets, Dial.popNextUnvisitedVertex, Dial.reachVertex,
      Dial.visitVertex, Dial.relaxEdge, Dial.advanceCurrentBucket, Dial.done,
      Dial.setDistanceToVertex, Dial.setPredecessor, Dial.makeRootVertex,
      Dial.labelVertexReached, Dial.labelVertexVisited, hb, hc] <;>
    split <;> simp [Dial.reachVertex, Dial.pushVertex, Dial.setBucket,
      Dial.numBuckets, hb, hc]

theorem runDial_zero_buckets (ops : List DialOp) (s : Dial)
    (hn : s.numBuckets = 0) (hc : s.currentBucketId = 0) :
    (runDial ops s).numBuckets = 0 ∧ (runDial ops s).currentBucketId = 0 := by
  induction ops generalizing s with
  | nil => exact ⟨hn, hc⟩
  | cons op ops ih =>
    have h := dialOp_apply_zero_buckets s op hn hc
    exact ih (op.apply s) h.1 h.2

/-- C9: when the bucket array is empty, `advance_current_bucket` early-returns
(no modulo-by-zero) and the search state — in particular the cursor, which is 0
in every state a zero-bucket search can reach — is unchanged; when at least one
bucket exists, the modular increment is applied and the cursor stays below
`num_buckets`. -/
theorem dial_advance_current_bucket_safe :
    (∀ s : Dial, s.numBuckets = 0 → s.advanceCurrentBucket = s) ∧
    (∀ nv ne fill : Nat, ∀ ops : List DialOp,
      (runDial ops (Dial.init nv ne fill 0)).currentBucketId = 0 ∧
      (runDial ops (Dial.init nv ne fill 0)).advanceCurrentBucket
        = runDial ops (Dial.init nv ne fill 0)) ∧
    (∀ s : Dial, 1 ≤ s.numBuckets →
      s.advanceCurrentBucket.currentBucketId
        = (s.currentBucketId + 1) % s.numBuckets ∧
      s.advanceCurrentBucket.currentBucketId < s.numBuckets) := by
  refine ⟨fun s h => by simp [Dial.advanceCurrentBucket, h], ?_, ?_⟩
  · intro nv ne fill ops
    have h0 : (Dial.init nv ne fill 0).numBuckets = 0 := by
      simp [Dial.init, Dial.numBuckets]
    have h := runDial_zero_buckets ops (Dial.init nv ne fill 0) h0 rfl
    exact ⟨h.2, by simp [Dial.advanceCurrentBucket, h.1]⟩
  · intro s h
    have hne : s.numBuckets ≠ 0 := Nat.pos_iff_ne_zero.mp h
    constructor
    · simp [Dial.advanceCurrentBucket, hne]
    · simp only [Dial.advanceCurrentBucket, if_neg hne]
      exact Nat.mod_lt _ h

theorem dial_advance_current_bucket_safe_witness :
    (Dial.init 2 1 0 0).advanceCurrentBucket = Dial.init 2 1 0 0 ∧
    (runDial [DialOp.done] (Dial.init 2 1 0 0)).currentBucketId = 0 ∧
    (Dial.init 2 1 0 3).advanceCurrentBucket.currentBucketId
      = ((Dial.init 2 1 0 3).currentBucketId + 1) % (Dial.init 2 1 0 3).numBuckets ∧
    (Dial.init 2 1 0 3).advanceCurrentBucket.currentBucketId
      < (Dial.init 2 1 0 3).numBuckets :=
  ⟨dial_advance_current_bucket_safe.1 (Dial.init 2 1 0 0) rfl,
    (dial_advance_current_bucket_safe.2.1 2 1 0 [DialOp.done]).1,
    (dial_advance_current_bucket_safe.2.2 (Dial.init 2 1 0 3) (by decide)).1,
    (dial_advance_current_bucket_safe.2.2 (Dial.init 2 1 0 3) (by decide)).2⟩

/-- C8: a Dial search whose bucket array is empty reports `done() = true`
through the early return, with the whole search state (buckets, labels,
distances, current bucket id) untouched. -/
theorem dial_done_zero_buckets (s : Dial) (h : s.numBuckets = 0) :
    s.done = (true, s) := by
  simp [Dial.done, h]

theorem dial_done_zero_buckets_witness :
    (Dial.init 2 1 0 0).done = (true, Dial.init 2 1 0 0) :=
  dial_done_zero_buckets (Dial.init 2 1 0 0) rfl

/-- One mutating call on a `ShortestPathForest`, other than `reset`. -/
inductive SPFOp where
  | labelVertexReached (v : Nat)
  | labelVertexVisited (v : Nat)
  | setDistanceToVertex (v : Nat) (d : Dist)
  | setPredecessor (v pv pe : Nat)
  | makeRootVertex (v : Nat)
deriving DecidableEq, Repr

/-- The state effect of one `ShortestPathForest` call. -/
def SPFOp.apply (s : ShortestPathForest) : SPFOp → ShortestPathForest
  | .labelVertexReached v => s.labelVertexReached v
  | .labelVertexVisited v => s.labelVertexVisited v
  | .setDistanceToVertex v d => s.setDistanceToVertex v d
  | .setPredecessor v pv pe => s.setPredecessor v pv pe
  | .makeRootVertex v => s.makeRootVertex v

/-- The documented precondition of one call: `label_vertex_reached` and
`label_vertex_visited` require a not-yet-visited vertex. -/
def SPFOp.valid (s : ShortestPathForest) : SPFOp → Bool
  | .labelVertexReached v => !s.hasVisitedVertex v
  | .labelVertexVisited v => !s.hasVisitedVertex v
  | _ => true

/-- A sequence of calls respecting the documented preconditions at each step. -/
def validOps (s : ShortestPathForest) : List SPFOp → Bool
  | [] => true
  | op :: ops => op.valid s && validOps (op.apply s) ops

/-- Drive a `ShortestPathForest` through a sequence of calls. -/
def runSPF (ops : List SPFOp) (s : ShortestPathForest) : ShortestPathForest :=
  ops.foldl SPFOp.apply s

/-- Position of a label in the `unreached → reached → visited` progression. -/
def Label.rank : Label → Nat
  | .unreached => 0
  | .reached => 1
  | .visited => 2

theorem label_rank_le_one_of_ne_visited (l : Label) (h : l ≠ .visited) :
    l.rank ≤ 1 := by
  cases l <;> simp_all [Label.rank]

theorem label_rank_le_two (l : Label) : l.rank ≤ 2 := by
  cases l <;> simp [Label.rank]

theorem getD_set_cases {α : Type} (l : List α) (i j : Nat) (a d : α) :
    (l.set i a).getD j d = a ∨ (l.set i a).getD j d = l.getD j d := by
  rw [List.getD_eq_getElem?_getD, List.getD_eq_getElem?_getD, List.getElem?_set]
  by_cases hij : i = j
  · subst hij
    by_cases hlt : i < l.length
    · left
      simp [hlt]
    · right
      simp [hlt, List.getElem?_eq_none (Nat.le_of_not_lt hlt)]
  · right
    simp [hij]

theorem label_eq_visited_of_two_le_rank (l : Label) (h : 2 ≤ l.rank) :
    l = .visited := by
  cases l <;> simp_all [Label.rank]

/-- One valid call never moves a vertex's label backward in the
`unreached → reached → visited` progression. -/
theorem spfOp_label_monotone (s : ShortestPathForest) (op : SPFOp)
    (h : op.valid s = true) (v : Nat) :
    (s.labelOf v).rank ≤ ((op.apply s).labelOf v).rank := by
  cases op with
  | labelVertexReached w =>
    have hnv : s.labelOf w ≠ .visited := by
      simp only [SPFOp.valid, ShortestPathForest.hasVisitedVertex,
        Bool.not_eq_true'] at h
      simpa using h
    have heq : ((SPFOp.apply s (.labelVertexReached w)).labelOf v)
        = (s.label.set w .reached).getD v .unreached := rfl
    by_cases hw : w = v
    · subst hw
      rcases getD_set_cases s.label w w .reached .unreached with hc | hc <;>
        rw [heq, hc]
      · exact label_rank_le_one_of_ne_visited _ hnv
      · exact Nat.le_refl _
    · rw [heq, getD_set_ne _ _ _ hw]
      exact Nat.le_refl _
  | labelVertexVisited w =>
    have heq : ((SPFOp.apply s (.labelVertexVisited w)).labelOf v)
        = (s.label.set w .visited).getD v .unreached := rfl
    by_cases hw : w = v
    · subst hw
      rcases getD_set_cases s.label w w .visited .unreached with hc | hc <;>
        rw [heq, hc]
      · exact label_rank_le_two _
      · exact Nat.le_refl _
    · rw [heq, getD_set_ne _ _ _ hw]
      exact Nat.le_refl _
  | setDistanceToVertex w d =>
    simp [SPFOp.apply, ShortestPathForest.setDistanceToVertex,
      ShortestPathForest.labelOf]
  | setPredecessor w pv pe =>
    simp [SPFOp.apply, ShortestPathForest.setPredecessor,
      ShortestPathForest.labelOf]
  | makeRootVertex w =>
    simp [SPFOp.apply, ShortestPathForest.makeRootVertex,
      ShortestPathForest.labelOf]

/-- C4: along any sequence of calls respecting the documented preconditions
(and not using `reset`), every vertex's label only moves forward in the
`unreached → reached → visited` progression; in particular a visited vertex
stays visited and is never relabelled `reached`. -/
theorem spf_label_progression (ops : List SPFOp) (s : ShortestPathForest)
    (h : validOps s ops = true) (v : Nat) :
    (s.labelOf v).rank ≤ ((runSPF ops s).labelOf v).rank ∧
    (s.hasVisitedVertex v = true →
      (runSPF ops s).hasVisitedVertex v = true ∧
      (runSPF ops s).labelOf v = .visited) := by
  have hrank : (s.labelOf v).rank ≤ ((runSPF ops s).labelOf v).rank := by
    induction ops generalizing s with
    | nil => exact Nat.le_refl _
    | cons op ops ih =>
      have h1 : op.valid s = true := by
        simp only [validOps, Bool.and_eq_true] at h
        exact h.1
      have h2 : validOps (op.apply s) ops = true := by
        simp only [validOps, Bool.and_eq_true] at h
        exact h.2
      exact Nat.le_trans (spfOp_label_monotone s op h1 v) (ih (op.apply s) h2)
  refine ⟨hrank, fun hvis => ?_⟩
  have hlab : s.labelOf v = .visited := by
    simpa [ShortestPathForest.hasVisitedVertex] using hvis
  have h2 : (2 : Nat) ≤ ((runSPF ops s).labelOf v).rank := by
    calc (2 : Nat) = (s.labelOf v).rank := by rw [hlab]; rfl
    _ ≤ _ := hrank
  have := label_eq_visited_of_two_le_rank _ h2
  exact ⟨by simp [ShortestPathForest.hasVisitedVertex, this], this⟩

theorem spf_label_progression_witness :
    ((ShortestPathForest.init 2 1 0).labelOf 0).rank
      ≤ ((runSPF [SPFOp.labelVertexReached 0, SPFOp.labelVertexVisited 0]
          (ShortestPathForest.init 2 1 0)).labelOf 0).rank ∧
    ((runSPF [SPFOp.labelVertexVisited 1]
        ((ShortestPathForest.init 2 1 0).labelVertexVisited 0)).hasVisitedVertex 0
      = true ∧
      (runSPF [SPFOp.labelVertexVisited 1]
        ((ShortestPathForest.init 2 1 0).labelVertexVisited 0)).labelOf 0
        = .visited) :=
  ⟨(spf_label_progression [SPFOp.labelVertexReached 0, SPFOp.labelVertexVisited 0]
      (ShortestPathForest.init 2 1 0) (by decide) 0).1,
    (spf_label_progression [SPFOp.labelVertexVisited 1]
      ((ShortestPathForest.init 2 1 0).labelVertexVisited 0) (by decide) 0).2
      (by decide)⟩

/-- C3: under `relax_edge`'s preconditions (contained edge and endpoints,
visited tail, tentative distance at least the tail's distance), the edge is
relaxed exactly when the tentative distance beats the head's stored distance:
then the head's predecessor becomes `(tail, edge)`, the head is labelled
reached, its distance becomes `d`, and it is appended to bucket
`d mod num_buckets()`; otherwise the whole state is unchanged. -/
theorem dial_relax_edge_spec (s : Dial) (edge tail head d : Nat)
    (hedge : s.toForest.containsEdge edge = true)
    (htail : s.toForest.containsVertex tail = true)
    (hhead : s.toForest.containsVertex head = true)
    (hvis : s.toShortestPathForest.hasVisitedVertex tail = true)
    (hdt : s.toShortestPathForest.distanceToVertex tail ≤ (d : Dist))
    (hnb : 1 ≤ s.numBuckets)
    (hl1 : s.predVertex.length = s.numVertices)
    (hl2 : s.predEdge.length = s.numVertices)
    (hl3 : s.label.length = s.numVertices)
    (hl4 : s.dist.length = s.numVertices) :
    ((d : Dist) < s.toShortestPathForest.distanceToVertex head →
      (s.relaxEdge edge tail head d).toForest.predecessorVertex head = tail ∧
      (s.relaxEdge edge tail head d).toForest.predecessorEdge head = edge ∧
      (s.relaxEdge edge tail head d).toShortestPathForest.hasReachedVertex head
        = true ∧
      (s.relaxEdge edge tail head d).toShortestPathForest.distanceToVertex head
        = (d : Dist) ∧
      (s.relaxEdge edge tail head d).getBucket (d % s.numBuckets)
        = s.getBucket (d % s.numBuckets) ++ [head]) ∧
    (¬ (d : Dist) < s.toShortestPathForest.distanceToVertex head →
      s.relaxEdge edge tail head d = s) := by
  have hheadlt : head < s.numVertices := by
    simpa [Forest.containsVertex] using hhead
  have hmod : d % s.numBuckets < s.buckets.length :=
    Nat.mod_lt _ hnb
  constructor
  · intro hlt
    have hrel : s.relaxEdge edge tail head d = s.reachVertex edge tail head d := by
      simp [Dial.relaxEdge, hlt]
    rw [hrel]
    refine ⟨?_, ?_, ?_, ?_, ?_⟩
    · simp only [Dial.reachVertex, Dial.pushVertex,
        Dial.setBucket, Dial.setDistanceToVertex, Dial.labelVertexReached,
        Dial.setPredecessor, ShortestPathForest.setPredecessor,
        ShortestPathForest.labelVertexReached,
        ShortestPathForest.setDistanceToVertex, Forest.setPredecessor,
        Forest.predecessorVertex]
      exact getD_set_self _ _ _ _ (hl1 ▸ hheadlt)
    · simp only [Dial.reachVertex, Dial.pushVertex,
        Dial.setBucket, Dial.setDistanceToVertex, Dial.labelVertexReached,
        Dial.setPredecessor, ShortestPathForest.setPredecessor,
        ShortestPathForest.labelVertexReached,
        ShortestPathForest.setDistanceToVertex, Forest.setPredecessor,
        Forest.predecessorEdge]
      exact getD_set_self _ _ _ _ (hl2 ▸ hheadlt)
    · simp only [Dial.reachVertex, Dial.pushVertex,
        Dial.setBucket, Dial.setDistanceToVertex, Dial.labelVertexReached,
        Dial.setPredecessor, ShortestPathForest.setPredecessor,
        ShortestPathForest.labelVertexReached,
        ShortestPathForest.setDistanceToVertex, Forest.setPredecessor,
        ShortestPathForest.hasReachedVertex, ShortestPathForest.labelOf]
      rw [getD_set_self _ _ _ _ (hl3 ▸ hheadlt)]
      simp
    · simp only [Dial.reachVertex, Dial.pushVertex,
        Dial.setBucket, Dial.setDistanceToVertex, Dial.labelVertexReached,
        Dial.setPredecessor, ShortestPathForest.setPredecessor,
        ShortestPathForest.labelVertexReached,
        ShortestPathForest.setDistanceToVertex, Forest.setPredecessor,
        ShortestPathForest.distanceToVertex]
      exact getD_set_self _ _ _ _ (hl4 ▸ hheadlt)
    · simp only [Dial.reachVertex, Dial.pushVertex,
        Dial.setBucket, Dial.setDistanceToVertex, Dial.labelVertexReached,
        Dial.setPredecessor, ShortestPathForest.setPredecessor,
        ShortestPathForest.labelVertexReached,
        ShortestPathForest.setDistanceToVertex, Forest.setPredecessor,
        Dial.getBucket, Dial.getBucketId, Dial.numBuckets]
      exact getD_set_self _ _ _ _ hmod
  · intro hge
    simp [Dial.relaxEdge, if_neg hge]

/-- Sample Dial state for exercising `relax_edge`: source 0 added and visited,
so vertex 0 has distance 0 and the visited label. -/
def relaxSampleState : Dial :=
  ((Dial.init 2 1 0 3).addSource 0).visitVertex 0 0

theorem dial_relax_edge_spec_witness :
    ((relaxSampleState.relaxEdge 0 0 1 1).toForest.predecessorVertex 1 = 0 ∧
      (relaxSampleState.relaxEdge 0 0 1 1).toForest.predecessorEdge 1 = 0 ∧
      (relaxSampleState.relaxEdge 0 0 1 1).toShortestPathForest.hasReachedVertex 1
        = true ∧
      (relaxSampleState.relaxEdge 0 0 1 1).toShortestPathForest.distanceToVertex 1
        = ((1 : Nat) : Dist) ∧
      (relaxSampleState.relaxEdge 0 0 1 1).getBucket (1 % relaxSampleState.numBuckets)
        = relaxSampleState.getBucket (1 % relaxSampleState.numBuckets) ++ [1]) :=
  (dial_relax_edge_spec relaxSampleState 0 0 1 1 (by decide) (by decide) (by decide)
    (by decide) (by decide) (by decide) (by decide) (by decide) (by decide)
    (by decide)).1 (by decide)

theorem dropWhile_head_false (p : Nat → Bool) :
    ∀ (l : List Nat) (v : Nat) (t : List Nat),
      l.dropWhile p = v :: t → p v = false := by
  intro l
  induction l with
  | nil => intro v t h; cases h
  | cons a l ih =>
    intro v t h
    by_cases ha : p a
    · rw [List.dropWhile_cons_of_pos ha] at h
      exact ih v t h
    · rw [List.dropWhile_cons_of_neg ha] at h
      cases h
      simpa using ha

theorem dial_getBucket_setBucket (s : Dial) (i : Nat) (q : List Nat) (j : Nat)
    (hi : i < s.numBuckets) :
    (s.setBucket i q).getBucket j = if i = j then q else s.getBucket j := by
  by_cases h : i = j
  · subst h
    simp only [Dial.setBucket, Dial.getBucket, if_pos rfl]
    exact getD_set_self _ _ _ _ hi
  · simp only [Dial.setBucket, Dial.getBucket, if_neg h]
    exact getD_set_ne _ _ _ h

theorem dial_advance_toSPF (s : Dial) :
    s.advanceCurrentBucket.toShortestPathForest = s.toShortestPathForest := by
  unfold Dial.advanceCurrentBucket
  split <;> rfl

theorem dial_advance_buckets (s : Dial) :
    s.advanceCurrentBucket.buckets = s.buckets := by
  unfold Dial.advanceCurrentBucket
  split <;> rfl

theorem dial_advance_getBucket (s : Dial) (j : Nat) :
    s.advanceCurrentBucket.getBucket j = s.getBucket j := by
  simp [Dial.getBucket, dial_advance_buckets]

theorem dial_advance_current_of_pos (s : Dial) (h : s.numBuckets ≠ 0) :
    s.advanceCurrentBucket.currentBucketId
      = (s.currentBucketId + 1) % s.numBuckets := by
  simp [Dial.advanceCurrentBucket, h]

theorem add_mod_ne_self {c m n : Nat} (hc : c < n) (hm1 : 1 ≤ m) (hm2 : m < n) :
    (c + m) % n ≠ c := by
  intro h
  have h2 : c + m ≡ c + 0 [MOD n] := by
    show (c + m) % n = (c + 0) % n
    rw [h, Nat.add_zero, Nat.mod_eq_of_lt hc]
  have h3 : m ≡ 0 [MOD n] := Nat.ModEq.add_left_cancel' c h2
  have h4 : m % n = 0 % n := h3
  rw [Nat.zero_mod, Nat.mod_eq_of_lt hm2] at h4
  omega

theorem exists_add_mod_eq {n : Nat} (c i : Nat) (hc : c < n) (hi : i < n) :
    ∃ j, j < n ∧ (c + j) % n = i := by
  refine ⟨(i + n - c) % n, Nat.mod_lt _ (by omega), ?_⟩
  have h1 : (c + (i + n - c) % n) % n = (c + (i + n - c)) % n := by
    conv_lhs => rw [Nat.add_mod]
    conv_rhs => rw [Nat.add_mod]
    rw [Nat.mod_mod_of_dvd _ (dvd_refl n)]
  have h2 : c + (i + n - c) = i + n := by omega
  rw [h1, h2, Nat.add_mod_right, Nat.mod_eq_of_lt hi]

theorem pos_shift (c j n : Nat) : ((c + 1) % n + j) % n = (c + (j + 1)) % n := by
  rw [Nat.mod_add_mod]
  have h : c + 1 + j = c + (j + 1) := by omega
  rw [h]

theorem doneAux_succ (fuel : Nat) (s : Dial) :
    Dial.doneAux (fuel + 1) s
      = (if ((s.currentBucket).dropWhile
            (fun v => s.toShortestPathForest.hasVisitedVertex v)).isEmpty
        then Dial.doneAux fuel
          ((s.setBucket s.currentBucketId
            ((s.currentBucket).dropWhile
              (fun v => s.toShortestPathForest.hasVisitedVertex v))).advanceCurrentBucket)
        else (false,
          s.setBucket s.currentBucketId
            ((s.currentBucket).dropWhile
              (fun v => s.toShortestPathForest.hasVisitedVertex v)))) := rfl

theorem dial_advance_numBuckets (s : Dial) :
    s.advanceCurrentBucket.numBuckets = s.numBuckets := by
  simp [Dial.numBuckets, dial_advance_buckets]

/-- Case analysis of the `do`/`while` loop of `Dial::done`: either every bucket
scanned within the fuel holds only visited vertices and the scan reports
`true`, having emptied those buckets and advanced the cursor once per
position, or there is a first position `k` whose bucket retains a non-visited
vertex after discarding its visited prefix — the scan stops there with
`false`, the cursor on that bucket, earlier scanned buckets emptied. -/
theorem doneAux_cases (n : Nat) (hn : 1 ≤ n) :
    ∀ (fuel : Nat) (s : Dial), s.numBuckets = n → s.currentBucketId < n →
      fuel ≤ n →
      ((∀ j, j < fuel → ∀ v ∈ s.getBucket ((s.currentBucketId + j) % n),
          s.toShortestPathForest.hasVisitedVertex v = true) ∧
        (Dial.doneAux fuel s).1 = true ∧
        (Dial.doneAux fuel s).2.toShortestPathForest = s.toShortestPathForest ∧
        (Dial.doneAux fuel s).2.numBuckets = n ∧
        (Dial.doneAux fuel s).2.currentBucketId = (s.currentBucketId + fuel) % n ∧
        (∀ i, i < n → (Dial.doneAux fuel s).2.getBucket i
          = if ∃ j, j < fuel ∧ (s.currentBucketId + j) % n = i then []
            else s.getBucket i)) ∨
      (∃ k, k < fuel ∧
        (∀ j, j < k → ∀ v ∈ s.getBucket ((s.currentBucketId + j) % n),
          s.toShortestPathForest.hasVisitedVertex v = true) ∧
        (Dial.doneAux fuel s).1 = false ∧
        (Dial.doneAux fuel s).2.toShortestPathForest = s.toShortestPathForest ∧
        (Dial.doneAux fuel s).2.numBuckets = n ∧
        (Dial.doneAux fuel s).2.currentBucketId = (s.currentBucketId + k) % n ∧
        (∀ i, i < n → (Dial.doneAux fuel s).2.getBucket i
          = if ∃ j, j ≤ k ∧ (s.currentBucketId + j) % n = i
            then (s.getBucket i).dropWhile
              (fun v => s.toShortestPathForest.hasVisitedVertex v)
            else s.getBucket i) ∧
        (∃ v t, (Dial.doneAux fuel s).2.getBucket ((s.currentBucketId + k) % n)
            = v :: t ∧ s.toShortestPathForest.hasVisitedVertex v = false)) := by
  intro fuel
  induction fuel with
  | zero =>
    intro s hs hc _
    left
    refine ⟨fun j hj => absurd hj (by omega), rfl, rfl, hs, ?_, ?_⟩
    · show s.currentBucketId = (s.currentBucketId + 0) % n
      rw [Nat.add_zero, Nat.mod_eq_of_lt hc]
    · intro i _
      rw [if_neg]
      · rfl
      · rintro ⟨j, hj, -⟩
        omega
  | succ fuel ih =>
    intro s hs hc hf
    have hclt : s.currentBucketId < s.numBuckets := by rw [hs]; exact hc
    rw [doneAux_succ]
    by_cases hemp : ((s.currentBucket).dropWhile
        (fun v => s.toShortestPathForest.hasVisitedVertex v)).isEmpty
    · rw [if_pos hemp]
      have hb2nil : (s.currentBucket).dropWhile
          (fun v => s.toShortestPathForest.hasVisitedVertex v) = [] := by
        simpa using hemp
      have hallc : ∀ v ∈ s.getBucket s.currentBucketId,
          s.toShortestPathForest.hasVisitedVertex v = true :=
        List.dropWhile_eq_nil_iff.mp hb2nil
      rw [hb2nil]
      have hsetn : (s.setBucket s.currentBucketId ([] : List Nat)).numBuckets
          = n := by
        rw [dial_numBuckets_setBucket]; exact hs
      have hs2spf :
          ((s.setBucket s.currentBucketId ([] : List Nat)).advanceCurrentBucket).toShortestPathForest
            = s.toShortestPathForest :=
        dial_advance_toSPF _
      have hs2n :
          ((s.setBucket s.currentBucketId ([] : List Nat)).advanceCurrentBucket).numBuckets
            = n := by
        rw [dial_advance_numBuckets]; exact hsetn
      have hs2c :
          ((s.setBucket s.currentBucketId ([] : List Nat)).advanceCurrentBucket).currentBucketId
            = (s.currentBucketId + 1) % n := by
        rw [dial_advance_current_of_pos _ (by rw [hsetn]; omega), hsetn]
        rfl
      have hs2c_lt :
          ((s.setBucket s.currentBucketId ([] : List Nat)).advanceCurrentBucket).currentBucketId
            < n := by
        rw [hs2c]; exact Nat.mod_lt _ (by omega)
      have hs2get : ∀ j,
          ((s.setBucket s.currentBucketId ([] : List Nat)).advanceCurrentBucket).getBucket j
            = if s.currentBucketId = j then [] else s.getBucket j := by
        intro j
        rw [dial_advance_getBucket]
        exact dial_getBucket_setBucket s _ _ j hclt
      have IH := ih ((s.setBucket s.currentBucketId ([] : List Nat)).advanceCurrentBucket)
        hs2n hs2c_lt (by omega)
      rw [hs2spf, hs2c] at IH
      simp only [pos_shift] at IH
      rcases IH with ⟨IH1, IH2, IH3, IH4, IH5, IH6⟩ |
        ⟨k, hk, IH1, IH2, IH3, IH4, IH5, IH6, IH7⟩
      · left
        refine ⟨?_, IH2, IH3, IH4, IH5, ?_⟩
        · intro j hj v hv
          match j with
          | 0 =>
            rw [Nat.add_zero, Nat.mod_eq_of_lt hc] at hv
            exact hallc v hv
          | j' + 1 =>
            by_cases hcp : s.currentBucketId = (s.currentBucketId + (j' + 1)) % n
            · rw [← hcp] at hv
              exact hallc v hv
            · apply IH1 j' (by omega) v
              rw [hs2get, if_neg hcp]
              exact hv
        · intro i hi
          by_cases hci : s.currentBucketId = i
          · rw [if_pos ⟨0, by omega, by
              rw [Nat.add_zero, Nat.mod_eq_of_lt hc]; exact hci⟩]
            rw [IH6 i hi]
            by_cases h2 : ∃ j, j < fuel ∧ (s.currentBucketId + (j + 1)) % n = i
            · rw [if_pos h2]
            · rw [if_neg h2, hs2get i, if_pos hci]
          · have hcond : (∃ j, j < fuel + 1 ∧ (s.currentBucketId + j) % n = i)
                ↔ (∃ j, j < fuel ∧ (s.currentBucketId + (j + 1)) % n = i) := by
              constructor
              · rintro ⟨j, hj, hjeq⟩
                match j with
                | 0 =>
                  rw [Nat.add_zero, Nat.mod_eq_of_lt hc] at hjeq
                  exact absurd hjeq hci
                | j' + 1 => exact ⟨j', by omega, hjeq⟩
              · rintro ⟨j, hj, hjeq⟩
                exact ⟨j + 1, by omega, hjeq⟩
            rw [IH6 i hi, hs2get i, if_neg hci]
            by_cases h2 : ∃ j, j < fuel ∧ (s.currentBucketId + (j + 1)) % n = i
            · rw [if_pos h2, if_pos (hcond.mpr h2)]
            · rw [if_neg h2, if_neg (fun hx => h2 (hcond.mp hx))]
      · right
        refine ⟨k + 1, by omega, ?_, IH2, IH3, IH4, IH5, ?_, IH7⟩
        · intro j hj v hv
          match j with
          | 0 =>
            rw [Nat.add_zero, Nat.mod_eq_of_lt hc] at hv
            exact hallc v hv
          | j' + 1 =>
            by_cases hcp : s.currentBucketId = (s.currentBucketId + (j' + 1)) % n
            · rw [← hcp] at hv
              exact hallc v hv
            · apply IH1 j' (by omega) v
              rw [hs2get, if_neg hcp]
              exact hv
        · intro i hi
          by_cases hci : s.currentBucketId = i
          · have hgc : (s.getBucket s.currentBucketId).dropWhile
                (fun v => s.toShortestPathForest.hasVisitedVertex v) = [] := hb2nil
            rw [if_pos ⟨0, by omega, by
              rw [Nat.add_zero, Nat.mod_eq_of_lt hc]; exact hci⟩]
            rw [IH6 i hi]
            rw [← hci, hgc]
            by_cases h2 : ∃ j, j ≤ k ∧ (s.currentBucketId + (j + 1)) % n
                = s.currentBucketId
            · rw [if_pos h2, hs2get, if_pos rfl]
              rfl
            · rw [if_neg h2, hs2get, if_pos rfl]
          · have hcond : (∃ j, j ≤ k + 1 ∧ (s.currentBucketId + j) % n = i)
                ↔ (∃ j, j ≤ k ∧ (s.currentBucketId + (j + 1)) % n = i) := by
              constructor
              · rintro ⟨j, hj, hjeq⟩
                match j with
                | 0 =>
                  rw [Nat.add_zero, Nat.mod_eq_of_lt hc] at hjeq
                  exact absurd hjeq hci
                | j' + 1 => exact ⟨j', by omega, hjeq⟩
              · rintro ⟨j, hj, hjeq⟩
                exact ⟨j + 1, by omega, hjeq⟩
            rw [IH6 i hi, hs2get i, if_neg hci]
            by_cases h2 : ∃ j, j ≤ k ∧ (s.currentBucketId + (j + 1)) % n = i
            · rw [if_pos h2, if_pos (hcond.mpr h2)]
            · rw [if_neg h2, if_neg (fun hx => h2 (hcond.mp hx))]
    · rw [if_neg hemp]
      right
      have hb2ne : (s.currentBucket).dropWhile
          (fun v => s.toShortestPathForest.hasVisitedVertex v) ≠ [] := by
        intro h0
        rw [h0] at hemp
        simp at hemp
      refine ⟨0, by omega, fun j hj => absurd hj (by omega), rfl, rfl, ?_, ?_, ?_, ?_⟩
      · show (s.setBucket s.currentBucketId _).numBuckets = n
        rw [dial_numBuckets_setBucket]; exact hs
      · show s.currentBucketId = (s.currentBucketId + 0) % n
        rw [Nat.add_zero, Nat.mod_eq_of_lt hc]
      · intro i hi
        show (s.setBucket s.currentBucketId _).getBucket i = _
        rw [dial_getBucket_setBucket s _ _ i hclt]
        by_cases hci : s.currentBucketId = i
        · rw [if_pos hci, if_pos ⟨0, le_refl 0, by
            rw [Nat.add_zero, Nat.mod_eq_of_lt hc]; exact hci⟩, ← hci]
          rfl
        · rw [if_neg hci, if_neg]
          rintro ⟨j, hj0, hjeq⟩
          have hj00 : j = 0 := by omega
          subst hj00
          rw [Nat.add_zero, Nat.mod_eq_of_lt hc] at hjeq
          exact hci hjeq
      · obtain ⟨v, t, hvt⟩ := List.exists_cons_of_ne_nil hb2ne
        refine ⟨v, t, ?_, dropWhile_head_false _ _ _ _ hvt⟩
        have hpos0 : (s.currentBucketId + 0) % n = s.currentBucketId := by
          rw [Nat.add_zero, Nat.mod_eq_of_lt hc]
        show (s.setBucket s.currentBucketId _).getBucket
            ((s.currentBucketId + 0) % n) = v :: t
        rw [hpos0, dial_getBucket_setBucket s _ _ _ hclt, if_pos rfl]
        exact hvt

theorem dial_getBucket_eq_get (s : Dial) (i : Nat) (h : i < s.numBuckets) :
    s.getBucket i = s.buckets.get ⟨i, h⟩ := by
  rw [Dial.getBucket, List.getD_eq_getElem?_getD, List.getElem?_eq_getElem h]
  simp

theorem dial_mem_buckets_iff (s : Dial) (b : List Nat) :
    b ∈ s.buckets ↔ ∃ i, i < s.numBuckets ∧ s.getBucket i = b := by
  rw [List.mem_iff_getElem]
  constructor
  · rintro ⟨i, hi, he⟩
    refine ⟨i, hi, ?_⟩
    rw [dial_getBucket_eq_get s i hi]
    simpa using he
  · rintro ⟨i, hi, he⟩
    refine ⟨i, hi, ?_⟩
    rw [dial_getBucket_eq_get s i hi] at he
    simpa using he

/-- C2: with at least one bucket (and the cursor in range, as every reachable
search state keeps it), `done()` scans cyclically from the current bucket for
at most `num_buckets()` positions, discarding visited vertices from bucket
fronts: it returns true exactly when every bucket holds only visited vertices,
in which case the scan has returned to its start with every bucket empty;
otherwise it returns false at the first position whose bucket retains an
unvisited front vertex, having emptied the buckets it advanced past, with the
cursor on that bucket and the unvisited vertex at its front.  The labels are
never modified. -/
theorem dial_done_spec (s : Dial) (hn : 1 ≤ s.numBuckets)
    (hc : s.currentBucketId < s.numBuckets) :
    (s.done.1 = true ↔
      ∀ b ∈ s.buckets, ∀ v ∈ b,
        s.toShortestPathForest.hasVisitedVertex v = true) ∧
    (s.done.1 = true →
      s.done.2.buckets = List.replicate s.numBuckets [] ∧
      s.done.2.currentBucketId = s.currentBucketId ∧
      s.done.2.toShortestPathForest = s.toShortestPathForest) ∧
    (s.done.1 = false →
      ∃ k, k < s.numBuckets ∧
        s.done.2.currentBucketId = (s.currentBucketId + k) % s.numBuckets ∧
        (∀ j, j < k →
          (∀ v ∈ s.getBucket ((s.currentBucketId + j) % s.numBuckets),
            s.toShortestPathForest.hasVisitedVertex v = true) ∧
          s.done.2.getBucket ((s.currentBucketId + j) % s.numBuckets) = []) ∧
        s.done.2.currentBucket
          = (s.getBucket ((s.currentBucketId + k) % s.numBuckets)).dropWhile
              (fun v => s.toShortestPathForest.hasVisitedVertex v) ∧
        s.done.2.toShortestPathForest = s.toShortestPathForest ∧
        (∃ v t, s.done.2.currentBucket = v :: t ∧
          s.toShortestPathForest.hasVisitedVertex v = false)) := by
  have hdone : s.done = Dial.doneAux s.numBuckets s := by
    rw [Dial.done, if_neg (by omega)]
  rw [hdone]
  have H := doneAux_cases s.numBuckets hn s.numBuckets s rfl hc (le_refl _)
  rcases H with ⟨H1, H2, H3, H4, H5, H6⟩ |
    ⟨k, hk, H1, H2, H3, H4, H5, H6, H7⟩
  · have hall : ∀ b ∈ s.buckets, ∀ v ∈ b,
        s.toShortestPathForest.hasVisitedVertex v = true := by
      intro b hb v hv
      obtain ⟨i, hi, hgb⟩ := (dial_mem_buckets_iff s b).mp hb
      obtain ⟨j, hj, hji⟩ := exists_add_mod_eq s.currentBucketId i hc hi
      apply H1 j hj v
      rw [hji, hgb]
      exact hv
    refine ⟨⟨fun _ => hall, fun _ => H2⟩, fun _ => ⟨?_, ?_, H3⟩, fun hf => ?_⟩
    · rw [List.eq_replicate_iff]
      refine ⟨H4, ?_⟩
      intro b hb
      obtain ⟨i, hi, hgb⟩ :=
        (dial_mem_buckets_iff (Dial.doneAux s.numBuckets s).2 b).mp hb
      have hi2 : i < s.numBuckets := by rw [← H4]; exact hi
      rw [← hgb, H6 i hi2,
        if_pos (exists_add_mod_eq s.currentBucketId i hc hi2)]
    · rw [H5, Nat.add_mod_right, Nat.mod_eq_of_lt hc]
    · rw [H2] at hf
      cases hf
  · have hposk : (s.currentBucketId + k) % s.numBuckets < s.numBuckets :=
      Nat.mod_lt _ (by omega)
    have hcurb : (Dial.doneAux s.numBuckets s).2.currentBucket
        = (s.getBucket ((s.currentBucketId + k) % s.numBuckets)).dropWhile
            (fun v => s.toShortestPathForest.hasVisitedVertex v) := by
      show (Dial.doneAux s.numBuckets s).2.getBucket
          (Dial.doneAux s.numBuckets s).2.currentBucketId = _
      rw [H5, H6 _ hposk, if_pos ⟨k, le_refl k, rfl⟩]
    refine ⟨⟨fun ht => ?_, fun hall => ?_⟩, fun ht => ?_, fun _ => ?_⟩
    · rw [H2] at ht
      cases ht
    · obtain ⟨v, t, hvt, hvf⟩ := H7
      rw [H6 _ hposk, if_pos ⟨k, le_refl k, rfl⟩] at hvt
      have hvmem : v ∈ s.getBucket ((s.currentBucketId + k) % s.numBuckets) := by
        apply (List.dropWhile_sublist _).subset
        rw [hvt]
        exact List.mem_cons_self v t
      have := hall _ ((dial_mem_buckets_iff s _).mpr ⟨_, hposk, rfl⟩) v hvmem
      rw [this] at hvf
      cases hvf
    · rw [H2] at ht
      cases ht
    · refine ⟨k, hk, H5, ?_, hcurb, H3, ?_⟩
      · intro j hj
        refine ⟨H1 j hj, ?_⟩
        have hposj : (s.currentBucketId + j) % s.numBuckets < s.numBuckets :=
          Nat.mod_lt _ (by omega)
        rw [H6 _ hposj, if_pos ⟨j, by omega, rfl⟩]
        exact List.dropWhile_eq_nil_iff.mpr (H1 j hj)
      · obtain ⟨v, t, hvt, hvf⟩ := H7
        refine ⟨v, t, ?_, hvf⟩
        show (Dial.doneAux s.numBuckets s).2.getBucket
            (Dial.doneAux s.numBuckets s).2.currentBucketId = v :: t
        rw [H5]
        exact hvt

/-- Sample Dial state for exercising `done`: two buckets; bucket 0 holds the
visited vertex 0, bucket 1 holds the merely reached vertex 1. -/
def doneSampleState : Dial :=
  ((((Dial.init 2 1 0 2).addSource 0).visitVertex 0 0).labelVertexReached
    1).pushVertex 1 1

theorem dial_done_spec_witness :
    (doneSampleState.done.1 = true ↔
      ∀ b ∈ doneSampleState.buckets, ∀ v ∈ b,
        doneSampleState.toShortestPathForest.hasVisitedVertex v = true) ∧
    (doneSampleState.done.1 = false →
      ∃ k, k < doneSampleState.numBuckets ∧
        doneSampleState.done.2.currentBucketId
          = (doneSampleState.currentBucketId + k) % doneSampleState.numBuckets ∧
        (∀ j, j < k →
          (∀ v ∈ doneSampleState.getBucket
              ((doneSampleState.currentBucketId + j) % doneSampleState.numBuckets),
            doneSampleState.toShortestPathForest.hasVisitedVertex v = true) ∧
          doneSampleState.done.2.getBucket
            ((doneSampleState.currentBucketId + j) % doneSampleState.numBuckets)
            = []) ∧
        doneSampleState.done.2.currentBucket
          = (doneSampleState.getBucket
              ((doneSampleState.currentBucketId + k)
                % doneSampleState.numBuckets)).dropWhile
              (fun v => doneSampleState.toShortestPathForest.hasVisitedVertex v) ∧
        doneSampleState.done.2.toShortestPathForest
          = doneSampleState.toShortestPathForest ∧
        (∃ v t, doneSampleState.done.2.currentBucket = v :: t ∧
          doneSampleState.toShortestPathForest.hasVisitedVertex v = false)) :=
  ⟨(dial_done_spec doneSampleState (by decide) (by decide)).1,
    (dial_done_spec doneSampleState (by decide) (by decide)).2.2⟩

/-- C7: `reset()` brings any Dial search (whose per-vertex arrays have the
graph's size, as the debug assertions maintain) back to the state of a freshly
constructed search on the same graph with the same number of buckets: all
vertices are singleton roots with the fill-value predecessor edge, all labels
unreached, all distances at the infinity sentinel, all buckets empty and the
cursor at 0 — so redriving any sequence of calls reproduces identical distance
and predecessor arrays. -/
theorem dial_reset_round_trip (s : Dial)
    (h1 : s.predEdge.length = s.numVertices)
    (h2 : s.label.length = s.numVertices)
    (h3 : s.dist.length = s.numVertices) :
    s.reset = Dial.init s.numVertices s.numEdges s.edgeFillValue s.numBuckets ∧
    ∀ ops : List DialOp,
      (runDial ops s.reset).dist
        = (runDial ops
            (Dial.init s.numVertices s.numEdges s.edgeFillValue s.numBuckets)).dist ∧
      (runDial ops s.reset).predVertex
        = (runDial ops
            (Dial.init s.numVertices s.numEdges s.edgeFillValue
              s.numBuckets)).predVertex ∧
      (runDial ops s.reset).predEdge
        = (runDial ops
            (Dial.init s.numVertices s.numEdges s.edgeFillValue
              s.numBuckets)).predEdge := by
  have hmain :
      s.reset = Dial.init s.numVertices s.numEdges s.edgeFillValue s.numBuckets := by
    simp only [Dial.reset, Dial.init, ShortestPathForest.reset,
      ShortestPathForest.init, Forest.reset, Forest.init, Dial.numBuckets,
      List.map_const', h1, h2, h3]
  exact ⟨hmain, fun ops => by rw [hmain]; exact ⟨rfl, rfl, rfl⟩⟩

/-- Sample Dial state for exercising `reset`: one source added. -/
def resetSampleState : Dial :=
  (Dial.init 2 2 5 3).addSource 1

theorem dial_reset_round_trip_witness :
    (resetSampleState.reset
      = Dial.init resetSampleState.numVertices resetSampleState.numEdges
          resetSampleState.edgeFillValue resetSampleState.numBuckets) ∧
    ((runDial [DialOp.addSource 0] resetSampleState.reset).dist
        = (runDial [DialOp.addSource 0]
            (Dial.init resetSampleState.numVertices resetSampleState.numEdges
              resetSampleState.edgeFillValue resetSampleState.numBuckets)).dist ∧
      (runDial [DialOp.addSource 0] resetSampleState.reset).predVertex
        = (runDial [DialOp.addSource 0]
            (Dial.init resetSampleState.numVertices resetSampleState.numEdges
              resetSampleState.edgeFillValue
              resetSampleState.numBuckets)).predVertex ∧
      (runDial [DialOp.addSource 0] resetSampleState.reset).predEdge
        = (runDial [DialOp.addSource 0]
            (Dial.init resetSampleState.numVertices resetSampleState.numEdges
              resetSampleState.edgeFillValue
              resetSampleState.numBuckets)).predEdge) :=
  ⟨(dial_reset_round_trip resetSampleState (by decide) (by decide) (by decide)).1,
    (dial_reset_round_trip resetSampleState (by decide) (by decide) (by decide)).2
      [DialOp.addSource 0]⟩

/-- C10: `set_predecessor(v, v, e)` passes the assertion guard for every edge
value `e` (the `vertex == pred_vertex` disjunct short-circuits the
`contains_edge` check), leaves `v` a root vertex, and stores `e` in the
predecessor-edge slot — unlike `make_root_vertex(v)`, which stores the fill
value, so the two roots are distinguishable whenever `e` differs from the fill
value. -/
theorem forest_set_predecessor_self_loop (f : Forest) (v e : Nat)
    (hv : f.containsVertex v = true)
    (hpv : f.predVertex.length = f.numVertices)
    (hpe : f.predEdge.length = f.numVertices) :
    f.setPredecessorGuard v v e = true ∧
    (f.setPredecessor v v e).isRootVertex v = true ∧
    (f.setPredecessor v v e).predecessorEdge v = e ∧
    (f.makeRootVertex v).predecessorEdge v = f.edgeFillValue ∧
    (e ≠ f.edgeFillValue →
      (f.setPredecessor v v e).predEdge ≠ (f.makeRootVertex v).predEdge) := by
  have hvlt : v < f.numVertices := by
    simpa [Forest.containsVertex] using hv
  refine ⟨?_, ?_, ?_, ?_, ?_⟩
  · simp [Forest.setPredecessorGuard, Forest.containsVertex, hvlt]
  · simp only [Forest.setPredecessor, Forest.isRootVertex, Forest.predecessorVertex]
    rw [getD_set_self _ _ _ _ (hpv ▸ hvlt)]
    simp
  · simp only [Forest.setPredecessor, Forest.predecessorEdge]
    exact getD_set_self _ _ _ _ (hpe ▸ hvlt)
  · simp only [Forest.makeRootVertex, Forest.predecessorEdge]
    exact getD_set_self _ _ _ _ (hpe ▸ hvlt)
  · intro hne heq
    apply hne
    have h1 : (f.predEdge.set v e).getD v f.edgeFillValue = e :=
      getD_set_self _ _ _ _ (hpe ▸ hvlt)
    have h2 : (f.predEdge.set v f.edgeFillValue).getD v f.edgeFillValue
        = f.edgeFillValue :=
      getD_set_self _ _ _ _ (hpe ▸ hvlt)
    have : (f.setPredecessor v v e).predEdge = f.predEdge.set v e := rfl
    have h3 : (f.makeRootVertex v).predEdge = f.predEdge.set v f.edgeFillValue :=
      rfl
    rw [this, h3] at heq
    rw [← h1, heq, h2]

theorem forest_set_predecessor_self_loop_witness :
    (Forest.init 2 1 0).setPredecessorGuard 1 1 7 = true ∧
    ((Forest.init 2 1 0).setPredecessor 1 1 7).isRootVertex 1 = true ∧
    ((Forest.init 2 1 0).setPredecessor 1 1 7).predecessorEdge 1 = 7 ∧
    ((Forest.init 2 1 0).makeRootVertex 1).predecessorEdge 1
      = (Forest.init 2 1 0).edgeFillValue ∧
    (7 ≠ (Forest.init 2 1 0).edgeFillValue →
      ((Forest.init 2 1 0).setPredecessor 1 1 7).predEdge
        ≠ ((Forest.init 2 1 0).makeRootVertex 1).predEdge) :=
  forest_set_predecessor_self_loop (Forest.init 2 1 0) 1 7 (by decide) rfl rfl

end Whirlwind
